import Mathlib

/-!
Verification development for the two CellProfiler plugin modules
`adaptivelocalnormalization.py` and `seeding.py`.

The Python code operates on 2D numpy float arrays.  The shallow embedding
models a 2D image as a rectangular `List (List ℚ)` (exact rational
arithmetic in place of float64; the claims settled here concern order
comparisons, masking, loop structure and division-by-zero/NaN structure,
all of which are exact-arithmetic questions except where noted in the
individual definitions).

Standard deviations: the Python code compares and clamps standard
deviations (`sqrt` of variances) against the threshold `t_std =
global_std * threshold_std`.  `sqrt` of a rational is irrational, so the
embedding carries every standard-deviation quantity by its *square* (the
variance): since `sqrt` is strictly monotone on nonnegative reals and all
compared quantities are nonnegative (threshold fractions are nonnegative
per the module's setting contract), `std_a ≤ std_b ↔ var_a ≤ var_b`, and
`std = 0 ↔ var = 0`.  NaN (from `numpy.sqrt` of a negative value) is
modelled as `none` in `Option ℚ`; NaN compares false under `<` and `≤`,
exactly as in numpy.
-/

namespace ALN

/-- The `strel_shape` setting of the module: `square` (fast path, scipy
uniform filters) or `disc` (slow path, `generic_filter` with a
`skimage.morphology.disk` footprint).  The `radius_method` modelled here is
`std`, the module's default; the `cv` branches differ only in the compared
statistic and share the identical loop/mask structure. -/
inductive Shape
  | square
  | disc
deriving DecidableEq

/-- A 2D image: list of rows, each a list of rational pixel values.
numpy arrays are rectangular; the embedding reads the column count off the
first row. -/
abbrev Img := List (List ℚ)

def rowsOf (img : Img) : ℕ := img.length

def colsOf (img : Img) : ℕ := (img.headD []).length

/-- scipy's default boundary mode `reflect` (symmetric padding
`(d c b a | a b c d | d c b a)`): an arbitrary integer index is folded
into `[0, n)` with period `2n`. -/
def reflIdx (n : ℕ) (k : ℤ) : ℕ :=
  let m := (k % (2 * (n : ℤ))).toNat
  if m < n then m else 2 * n - 1 - m

/-- Pixel access with symmetric-reflect boundary handling, per axis, as
scipy's filters do. -/
def pixel (img : Img) (i j : ℤ) : ℚ :=
  (img.getD (reflIdx (rowsOf img) i) []).getD (reflIdx (colsOf img) j) 0

/-- `numpy.mean` of a list of values (empty list: `0/0 = 0` in ℚ; numpy
never meets that case on the inputs considered here). -/
def qmean (l : List ℚ) : ℚ := l.sum / l.length

/-- Mean of the squared values, `E[X²]`. -/
def qmeanSq (l : List ℚ) : ℚ := (l.map (fun x => x * x)).sum / l.length

/-- Population variance `E[X²] − E[X]²`.  This is both the quantity
`c2 − c1·c1` of `uniform_filter_std` and (by the algebraic identity
`E[(X−μ)²] = E[X²] − μ²`, exact in ℚ) the square of `numpy.std`. -/
def listVar (l : List ℚ) : ℚ := qmeanSq l - (qmean l) ^ 2

/-- The 1D offsets of `scipy.ndimage.filters.uniform_filter` for window
parameter `size`: the kernel origin sits at index `size / 2`, so the
window covers offsets `t - size / 2` for `t = 0, …, size−1` (for even
`size` the extra cell lies on the negative side). -/
def windowOffsets (size : ℕ) : List ℤ :=
  (List.range size).map (fun t => (Int.ofNat t) - (Int.ofNat (size / 2)))

/-- The multiset of pixel values covered by the separable 2D uniform
filter of parameter `size` centered (up to the even-size shift) at
`(i, j)`, with reflect padding applied per axis. -/
def windowVals (img : Img) (size : ℕ) (i j : ℕ) : List ℚ :=
  ((windowOffsets size).map (fun di =>
    (windowOffsets size).map (fun dj =>
      pixel img ((i : ℤ) + di) ((j : ℤ) + dj)))).flatten

/-- The variance estimate `c2 − c1·c1` of `uniform_filter_std` at one
pixel: `c1 = uniform_filter(img, size)`, `c2 = uniform_filter(img², size)`
are averages over the same window multiset, so the estimate equals the
window's population variance (exact in ℚ). -/
def uniformVar (img : Img) (size : ℕ) (i j : ℕ) : ℚ :=
  listVar (windowVals img size i j)

/-- `numpy.sqrt` applied to a variance, in the squared carrier: a negative
argument yields NaN (`none`, as in the code, which has no clamping); a
nonnegative variance `v` stands for the standard deviation `sqrt v`,
carried as `some v`. -/
def stdOfVar (v : ℚ) : Option ℚ :=
  if v < 0 then none else some v

/-- `numpy.mean` of an array of possibly-NaN values: NaN propagates, so
the mean is NaN as soon as one entry is NaN (this is the `numpy.mean`
called on line 94 of `uniform_filter_std`, not `numpy.nanmean`). -/
def npMeanOpt (a : List (Option ℚ)) : Option ℚ :=
  if a.any Option.isNone then none else some (qmean (a.filterMap id))

/-- Line 94 of `uniform_filter_std`:
`img_std[numpy.isnan(img_std)] = numpy.mean(img_std)` — every NaN entry is
overwritten with `numpy.mean` of the whole array (NaNs included). -/
def nanRepair (a : List (Option ℚ)) : List (Option ℚ) :=
  a.map (fun x => if x.isNone then npMeanOpt a else x)

/-- Modelled from the spec: the repair the spec describes instead replaces
each NaN by the mean of the *remaining valid (non-NaN)* entries
(`numpy.nanmean` semantics). -/
def specNanRepair (a : List (Option ℚ)) : List (Option ℚ) :=
  a.map (fun x => if x.isNone then some (qmean (a.filterMap id)) else x)

/-- Modelled from the spec: the variance estimate "must be clamped to zero
before the square root" — clamp, then `sqrt`, in the squared carrier. -/
def specStdOfVar (v : ℚ) : Option ℚ :=
  some (max v 0)

/-- The offsets of `skimage.morphology.disk r`: integer points with
`di² + dj² ≤ r²`. -/
def discOffsets (r : ℕ) : List (ℤ × ℤ) :=
  (((List.range (2 * r + 1)).map (fun a =>
    (List.range (2 * r + 1)).map (fun b =>
      ((a : ℤ) - (r : ℤ), (b : ℤ) - (r : ℤ))))).flatten).filter
    (fun d => d.1 * d.1 + d.2 * d.2 ≤ (r : ℤ) * (r : ℤ))

/-- The pixel values under the disk footprint centered at `(i, j)`, with
reflect padding (`generic_filter`'s default mode). -/
def discVals (img : Img) (r : ℕ) (i j : ℕ) : List ℚ :=
  (discOffsets r).map (fun d => pixel img ((i : ℤ) + d.1) ((j : ℤ) + d.2))

/-- The local standard deviation (squared carrier) used at radius `r`:
square mode is `uniform_filter_std img r` at one pixel — note the window
parameter passed is `r` itself (lines 218/284: `uniform_filter_std(img, r)`).
Disc mode is `generic_filter(img, numpy.std, footprint=disk(r))`, whose
result is a genuine population std, never NaN.
The NaN-repair line 94 is the identity on every array (theorem
`nanRepair_eq_self` below), so it is dropped from this per-pixel form. -/
def localStdSq (sh : Shape) (img : Img) (r : ℕ) (i j : ℕ) : Option ℚ :=
  match sh with
  | .square => stdOfVar (uniformVar img r i j)
  | .disc => some (listVar (discVals img r i j))

/-- The local mean used at radius `r` (`uniform_filter_mean(img, r)` in
square mode, `generic_filter(img, numpy.mean, footprint=disk(r))` in disc
mode). -/
def localMean (sh : Shape) (img : Img) (r : ℕ) (i j : ℕ) : ℚ :=
  match sh with
  | .square => qmean (windowVals img r i j)
  | .disc => qmean (discVals img r i j)

/-- `numpy.std(img)` squared: the global variance of the whole image. -/
def gvar (img : Img) : ℚ := listVar img.flatten

/-- `numpy.mean(img)`. -/
def gmean (img : Img) : ℚ := qmean img.flatten

/-- The noise threshold `t_std = global_std * threshold_std`, in the
squared carrier: `t_std² = gvar · f²`. -/
def tVar (img : Img) (f : ℚ) : ℚ := gvar img * f ^ 2

/-- The comparison `img_std <= t_std` (squared carrier).  A NaN standard
deviation compares false, as in numpy. -/
def leStdSq : Option ℚ → ℚ → Bool
  | none, _ => false
  | some v, t => decide (v ≤ t)

/-- The assignment condition `img_bool = img_std <= t_std` of
`calculate_radius_image` at one pixel (radius method `std`). -/
def condStd (sh : Shape) (img : Img) (f : ℚ) (r : ℕ) (i j : ℕ) : Bool :=
  leStdSq (localStdSq sh img r i j) (tVar img f)

/-- `radii = numpy.arange(radius_max) + 1`: the list `[1, …, radius_max]`,
empty when `radius_max ≤ 0` (numpy's `arange` of a nonpositive count). -/
def radii (radius_max : ℤ) : List ℕ :=
  (List.range radius_max.toNat).map (· + 1)

/-- The result of a loop `for r in [1..n]: if c r then slot := r` started
at `0`: the abstract per-pixel shape of the radius-search fold, shared by
the lemmas below. -/
def lastHit (c : ℕ → Bool) (n : ℕ) : ℕ :=
  ((List.range n).map (· + 1)).foldl (fun acc r => if c r then r else acc) 0

/-- One pixel of `calculate_radius_image`: the loop
`for r in radii: radius_image[img_bool] = r` starts from
`zeros_like(img)` and overwrites the pixel with `r` whenever the condition
holds at radius `r`; per pixel this is a left fold over the radii. -/
def radiusEntry (sh : Shape) (img : Img) (f : ℚ) (radius_max : ℤ)
    (i j : ℕ) : ℕ :=
  (radii radius_max).foldl (fun acc r => if condStd sh img f r i j then r else acc) 0

/-- A grid of per-pixel values over the image's shape. -/
def mapGrid (m n : ℕ) (g : ℕ → ℕ → α) : List (List α) :=
  (List.range m).map (fun i => (List.range n).map (fun j => g i j))

/-- `calculate_radius_image` (radius method `std`): the per-pixel fold,
assembled over the image grid (the numpy loop of masked whole-image
assignments acts on each pixel independently). -/
def calculate_radius_image (sh : Shape) (img : Img) (threshold_std : ℚ)
    (radius_max : ℤ) : List (List ℕ) :=
  mapGrid (rowsOf img) (colsOf img)
    (fun i j => radiusEntry sh img threshold_std radius_max i j)

/-- Modelled from the spec: `radius_field[p] = smallest r in [1, r_max]
such that the local dispersion statistic at p … exceeds the noise
threshold, or r_max if no such r exists`. -/
def specRadiusEntry (sh : Shape) (img : Img) (f : ℚ) (radius_max : ℤ)
    (i j : ℕ) : ℕ :=
  ((radii radius_max).find? (fun r => ! condStd sh img f r i j)).getD radius_max.toNat

/-- Modelled from the spec: the fast estimator's std at radius `r` uses a
rolling window of size `(2r+1)×(2r+1)`. -/
def specFastLocalStdSq (img : Img) (r : ℕ) (i j : ℕ) : Option ℚ :=
  stdOfVar (uniformVar img (2 * r + 1) i j)

/-- The clamping `img_std[img_std < t_std] = t_std` of
`calculate_aln_image` at one pixel (squared carrier; a NaN std compares
false under `<` and is left NaN). -/
def clampStd (t : ℚ) : Option ℚ → Option ℚ
  | none => none
  | some v => if v < t then some t else some v

/-- One cell of the normalized image.  `init` is the untouched `0.0` from
`aln_image = numpy.zeros_like(img)`; `val num var` is a written cell whose
float value is `num / sqrt var` (`var` in the squared carrier, `none` for
a NaN denominator): `num = (img - img_mean)[p]` and `var` the clamped
local variance.  `val 0 (some 0)` is `0.0/0.0 = NaN`; `val n (some 0)`
with `n ≠ 0` is `±inf`. -/
inductive ALNCell
  | init
  | val (num : ℚ) (varDen : Option ℚ)
deriving DecidableEq

/-- Whether the cell's float value is finite (neither NaN nor ±inf):
an untouched `0.0` is finite; a written `num / sqrt var` is finite iff the
denominator is a nonzero non-NaN std. -/
def ALNCell.isFiniteVal : ALNCell → Bool
  | .init => true
  | .val _ s =>
    match s with
    | none => false
    | some v => decide (v ≠ 0)

/-- Whether the cell's float value is exactly `0.0`. -/
def ALNCell.isZeroVal : ALNCell → Bool
  | .init => true
  | .val n s =>
    match s with
    | none => false
    | some v => decide (n = 0 ∧ v ≠ 0)

/-- Whether the cell's float value is NaN (`0/0`, or a NaN denominator). -/
def ALNCell.isNaNVal : ALNCell → Bool
  | .init => false
  | .val n s =>
    match s with
    | none => true
    | some v => decide (n = 0 ∧ v = 0)

/-- One pixel of `calculate_aln_image` (radius method `std`): for each
radius `r` in increasing order the code writes
`aln_image[radius_image == r] = ((img - img_mean) / img_std)[radius_image == r]`
with `img_std` clamped below by `t_std`; per pixel, the cell is written in
exactly the pass whose `r` equals the pixel's radius entry. -/
def alnCell (sh : Shape) (img : Img) (f : ℚ) (radius_max : ℤ)
    (i j : ℕ) : ALNCell :=
  (radii radius_max).foldl
    (fun acc r =>
      if radiusEntry sh img f radius_max i j = r then
        ALNCell.val (pixel img i j - localMean sh img r i j)
          (clampStd (tVar img f) (localStdSq sh img r i j))
      else acc)
    ALNCell.init

/-- `calculate_aln_image` (radius method `std`), assembled per pixel over
the image grid. -/
def calculate_aln_image (sh : Shape) (img : Img) (threshold_std : ℚ)
    (radius_max : ℤ) : List (List ALNCell) :=
  mapGrid (rowsOf img) (colsOf img)
    (fun i j => alnCell sh img threshold_std radius_max i j)

/-- Modelled from the spec: "Invalid configuration (`threshold_fraction`
outside [0,1), `max_radius` ≤ 0) is rejected before computation begins —
signaled as a configuration error".  The range checks belong to the
`cellprofiler.setting` machinery (the `Float` and `Integer` settings used
by `create_settings`), which is part of the repository but not under
`src/`; it is modelled as a guard evaluated before the pipeline runs. -/
def validConfig (threshold_std : ℚ) (radius_max : ℤ) : Bool :=
  decide (0 ≤ threshold_std) && decide (threshold_std < 1) && decide (0 < radius_max)

/-- The 2D branch of `run` behind the spec-modelled configuration
validation: a valid configuration proceeds to `calculate_radius_image`
followed by `calculate_aln_image`; an invalid one is reported as a
configuration error without entering either computation. -/
def runValidated (sh : Shape) (img : Img) (threshold_std : ℚ)
    (radius_max : ℤ) : Except String (List (List ℕ) × List (List ALNCell)) :=
  if validConfig threshold_std radius_max then
    .ok (calculate_radius_image sh img threshold_std radius_max,
         calculate_aln_image sh img threshold_std radius_max)
  else
    .error "invalid configuration"

end ALN

namespace Seeding

/-- A 3D image (z-stack): list of 2D slices. -/
abbrev Vol := List (List (List ℚ))

/-- `numpy.amax(y_data)`, taken in `Seeding.run` right after the copy and
before any slice is overwritten, hence the maximum of the input.  (numpy
raises on an empty array; the fold starts from the first entry when one
exists.) -/
def amax (x : Vol) : ℚ :=
  (x.flatten.flatten).foldl max ((x.flatten.flatten).headD 0)

/-- `y[k, :, :] = c`: every entry of a slice replaced by the scalar `c`,
shape preserved. -/
def fillSlice (s : List (List ℚ)) (c : ℚ) : List (List ℚ) :=
  s.map (fun row => row.map (fun _ => c))

/-- `Seeding.run` on the pixel data: `y_data = x.pixel_data.copy()` (the
input itself is untouched — value semantics here), then
`y_data[0, :, :] = amax + 1` and `y_data[-1, :, :] = amax + 2` in that
order (numpy's `-1` is index `length − 1`). -/
def run (x : Vol) : Vol :=
  let fl := amax x + 1
  let y1 := x.set 0 (fillSlice (x.headD []) fl)
  y1.set (y1.length - 1) (fillSlice (y1.getD (y1.length - 1) []) (fl + 1))

end Seeding

namespace ALN

theorem nanRepair_eq_self (a : List (Option ℚ)) : nanRepair a = a := by
  unfold nanRepair
  conv_rhs => rw [← List.map_id a]
  refine List.map_congr_left (fun x hx => ?_)
  cases x with
  | some v => rfl
  | none =>
    have hany : a.any Option.isNone = true :=
      List.any_eq_true.mpr ⟨none, hx, rfl⟩
    simp [npMeanOpt, hany]

theorem sum_sq_bound (l : List ℚ) :
    (l.sum) ^ 2 ≤ (l.length : ℚ) * (l.map (fun x => x * x)).sum := by
  induction l with
  | nil => simp
  | cons a l ih =>
    have hq : 0 ≤ (l.map (fun x => x * x)).sum := by
      apply List.sum_nonneg
      intro x hx
      obtain ⟨y, _, rfl⟩ := List.mem_map.mp hx
      exact mul_self_nonneg y
    rcases eq_or_ne l [] with rfl | hne
    · simp only [List.sum_cons, List.sum_nil, List.map_nil, List.map_cons,
        List.length_cons, List.length_nil]
      push_cast
      nlinarith []
    · have hn1 : (1 : ℚ) ≤ (l.length : ℚ) := by
        have : 1 ≤ l.length := List.length_pos.mpr hne
        exact_mod_cast this
      simp only [List.sum_cons, List.map_cons, List.length_cons]
      push_cast
      nlinarith [sq_nonneg ((l.length : ℚ) * a - l.sum), ih, hq, hn1]

theorem listVar_nonneg (l : List ℚ) : 0 ≤ listVar l := by
  rcases Nat.eq_zero_or_pos l.length with h0 | hpos
  · have : l = [] := List.length_eq_zero.mp h0
    subst this
    simp [listVar, qmean, qmeanSq]
  · have hn : (0 : ℚ) < (l.length : ℚ) := by exact_mod_cast hpos
    unfold listVar qmean qmeanSq
    rw [sub_nonneg, div_pow, div_le_div_iff₀ (by positivity) hn]
    have := sum_sq_bound l
    nlinarith [this, hn]

theorem lastHit_succ (c : ℕ → Bool) (n : ℕ) :
    lastHit c (n + 1) = if c (n + 1) then n + 1 else lastHit c n := by
  unfold lastHit
  rw [List.range_succ, List.map_append, List.foldl_append]
  simp

theorem lastHit_char (c : ℕ → Bool) (n : ℕ) :
    (lastHit c n = 0 ∧ ∀ r, 1 ≤ r → r ≤ n → c r = false)
    ∨ (1 ≤ lastHit c n ∧ lastHit c n ≤ n ∧ c (lastHit c n) = true ∧
        ∀ r, lastHit c n < r → r ≤ n → c r = false) := by
  induction n with
  | zero =>
    left
    refine ⟨rfl, fun r h1 h2 => absurd (Nat.le_trans h1 h2) (by omega)⟩
  | succ n ih =>
    rw [lastHit_succ]
    by_cases h : c (n + 1) = true
    · right
      rw [if_pos h]
      exact ⟨by omega, Nat.le_refl _, h, fun r hr1 hr2 => absurd hr1 (by omega)⟩
    · have hf : c (n + 1) = false := by
        cases hc : c (n + 1)
        · rfl
        · exact absurd hc h
      rw [if_neg h]
      rcases ih with ⟨h0, hall⟩ | ⟨h1, h2, h3, h4⟩
      · left
        refine ⟨h0, fun r hr1 hr2 => ?_⟩
        by_cases hr : r ≤ n
        · exact hall r hr1 hr
        · have : r = n + 1 := by omega
          subst this
          exact hf
      · right
        refine ⟨h1, by omega, h3, fun r hr1 hr2 => ?_⟩
        by_cases hr : r ≤ n
        · exact h4 r hr1 hr
        · have : r = n + 1 := by omega
          subst this
          exact hf

theorem lastHit_le (c : ℕ → Bool) (n : ℕ) : lastHit c n ≤ n := by
  rcases lastHit_char c n with ⟨h0, _⟩ | ⟨_, h2, _, _⟩
  · omega
  · exact h2

theorem radiusEntry_eq_lastHit (sh : Shape) (img : Img) (f : ℚ)
    (radius_max : ℤ) (i j : ℕ) :
    radiusEntry sh img f radius_max i j
      = lastHit (fun r => condStd sh img f r i j) radius_max.toNat := rfl

theorem guardFold_eq (g : ℕ → ALNCell) (v n : ℕ) :
    ((List.range n).map (· + 1)).foldl
        (fun acc r => if v = r then g r else acc) ALNCell.init
      = if 1 ≤ v ∧ v ≤ n then g v else ALNCell.init := by
  induction n with
  | zero =>
    rw [if_neg (by omega)]
    rfl
  | succ n ih =>
    rw [List.range_succ, List.map_append, List.foldl_append, ih]
    simp only [List.map_cons, List.map_nil, List.foldl_cons, List.foldl_nil]
    by_cases h : v = n + 1
    · subst h
      rw [if_pos rfl, if_pos (show 1 ≤ n + 1 ∧ n + 1 ≤ n + 1 by omega)]
    · rw [if_neg h]
      by_cases h2 : 1 ≤ v ∧ v ≤ n
      · rw [if_pos h2, if_pos (show 1 ≤ v ∧ v ≤ n + 1 by omega)]
      · rw [if_neg h2, if_neg (show ¬(1 ≤ v ∧ v ≤ n + 1) by omega)]

theorem alnCell_eq (sh : Shape) (img : Img) (f : ℚ) (radius_max : ℤ)
    (i j : ℕ) :
    alnCell sh img f radius_max i j
      = if 1 ≤ radiusEntry sh img f radius_max i j
            ∧ radiusEntry sh img f radius_max i j ≤ radius_max.toNat then
          ALNCell.val
            (pixel img i j
              - localMean sh img (radiusEntry sh img f radius_max i j) i j)
            (clampStd (tVar img f)
              (localStdSq sh img (radiusEntry sh img f radius_max i j) i j))
        else ALNCell.init := by
  unfold alnCell radii
  exact guardFold_eq _ _ _

theorem localStdSq_some_nonneg (sh : Shape) (img : Img) (r : ℕ) (i j : ℕ) :
    ∃ v, localStdSq sh img r i j = some v ∧ 0 ≤ v := by
  cases sh with
  | square =>
    have h := listVar_nonneg (windowVals img r i j)
    refine ⟨uniformVar img r i j, ?_, h⟩
    unfold localStdSq stdOfVar uniformVar
    rw [if_neg (by simp only [not_lt]; exact h)]
  | disc =>
    exact ⟨listVar (discVals img r i j), rfl, listVar_nonneg _⟩

theorem windowOffsets_one : windowOffsets 1 = [0] := by decide

theorem windowVals_one (img : Img) (i j : ℕ) :
    windowVals img 1 i j = [pixel img i j] := by
  unfold windowVals
  rw [windowOffsets_one]
  simp

theorem uniformVar_one (img : Img) (i j : ℕ) : uniformVar img 1 i j = 0 := by
  unfold uniformVar listVar qmean qmeanSq
  rw [windowVals_one]
  simp only [List.map_cons, List.map_nil, List.sum_cons, List.sum_nil,
    List.length_cons, List.length_nil]
  push_cast
  ring

theorem tVar_nonneg (img : Img) (f : ℚ) : 0 ≤ tVar img f :=
  mul_nonneg (listVar_nonneg _) (sq_nonneg f)

theorem condStd_one_square (img : Img) (f : ℚ) (i j : ℕ) :
    condStd Shape.square img f 1 i j = true := by
  unfold condStd localStdSq stdOfVar
  rw [uniformVar_one, if_neg (by norm_num)]
  unfold leStdSq
  exact decide_eq_true (tVar_nonneg img f)

end ALN

namespace ALN

/-- Claim C1: the claim asserts `radius_field[p]` is the *smallest* radius
whose dispersion *exceeds* the threshold (else `max_radius`), with smaller
radii winning.  The code's loop assigns `r` wherever the dispersion is
`<=` the threshold and later radii overwrite earlier ones, so the claim is
false: on `[[0,9,0],[9,0,9],[0,9,0]]` with `threshold_std = 1/2` and
`radius_max = 2`, pixel (1,1) gets code value 1 but the claimed formula
gives 2; and on a constant image pixel (0,0) is assigned at radius 1 and
then overwritten to 2. -/
theorem C1_counterexample :
    (radiusEntry Shape.square [[0,9,0],[9,0,9],[0,9,0]] (1/2) 2 1 1 = 1
      ∧ specRadiusEntry Shape.square [[0,9,0],[9,0,9],[0,9,0]] (1/2) 2 1 1 = 2)
    ∧ (condStd Shape.square [[5,5],[5,5]] (1/2) 1 0 0 = true
      ∧ radiusEntry Shape.square [[5,5],[5,5]] (1/2) 2 0 0 = 2) := by with_unfolding_all decide

/-- Claim C1 (amended): radii are scanned in increasing order but each
pass overwrites previously assigned pixels, and the assignment condition
is `dispersion ≤ threshold`; hence a pixel's entry is the *largest* radius
in `[1, radius_max]` whose dispersion is at or below the threshold, or `0`
(its `zeros_like` initial value) if no radius qualifies. -/
theorem C1_radius_last_qualifying_wins (sh : Shape) (img : Img) (f : ℚ)
    (radius_max : ℤ) (i j : ℕ) :
    (radiusEntry sh img f radius_max i j = 0
      ∧ ∀ r : ℕ, 1 ≤ r → (r : ℤ) ≤ radius_max → condStd sh img f r i j = false)
    ∨ (1 ≤ radiusEntry sh img f radius_max i j
      ∧ (radiusEntry sh img f radius_max i j : ℤ) ≤ radius_max
      ∧ condStd sh img f (radiusEntry sh img f radius_max i j) i j = true
      ∧ ∀ r : ℕ, radiusEntry sh img f radius_max i j < r →
          (r : ℤ) ≤ radius_max → condStd sh img f r i j = false) := by
  rw [radiusEntry_eq_lastHit]
  rcases lastHit_char (fun r => condStd sh img f r i j) radius_max.toNat with
    ⟨h0, hall⟩ | ⟨h1, h2, h3, h4⟩
  · left
    exact ⟨h0, fun r hr1 hr2 => hall r hr1 (by omega)⟩
  · right
    exact ⟨h1, by omega, h3, fun r hr1 hr2 => h4 r hr1 (by omega)⟩

/-- Claim C1 witness: the characterization instantiated at the
counterexample image. -/
theorem C1_witness :
    (radiusEntry Shape.square [[0,9,0],[9,0,9],[0,9,0]] (1/2) 2 1 1 = 0
      ∧ ∀ r : ℕ, 1 ≤ r → (r : ℤ) ≤ 2 →
          condStd Shape.square [[0,9,0],[9,0,9],[0,9,0]] (1/2) r 1 1 = false)
    ∨ (1 ≤ radiusEntry Shape.square [[0,9,0],[9,0,9],[0,9,0]] (1/2) 2 1 1
      ∧ (radiusEntry Shape.square [[0,9,0],[9,0,9],[0,9,0]] (1/2) 2 1 1 : ℤ) ≤ 2
      ∧ condStd Shape.square [[0,9,0],[9,0,9],[0,9,0]] (1/2)
          (radiusEntry Shape.square [[0,9,0],[9,0,9],[0,9,0]] (1/2) 2 1 1) 1 1 = true
      ∧ ∀ r : ℕ, radiusEntry Shape.square [[0,9,0],[9,0,9],[0,9,0]] (1/2) 2 1 1 < r →
          (r : ℤ) ≤ 2 →
          condStd Shape.square [[0,9,0],[9,0,9],[0,9,0]] (1/2) r 1 1 = false) :=
  C1_radius_last_qualifying_wins Shape.square [[0,9,0],[9,0,9],[0,9,0]] (1/2) 2 1 1

/-- Claim C2: the claim asserts every radius-field entry lies in
`[1, max_radius]`.  In disc mode a pixel whose dispersion stays above the
threshold at every radius keeps its initial value 0: on
`[[0,0,0],[0,9,0],[0,0,0]]` with `threshold_std = 1/10` and
`radius_max = 1`, entry (1,1) is 0. -/
theorem C2_counterexample :
    ¬ (1 ≤ ((calculate_radius_image Shape.disc [[0,0,0],[0,9,0],[0,0,0]]
        (1/10) 1).getD 1 []).getD 1 0) := by with_unfolding_all decide

/-- Claim C2 (amended): entries always lie in `[0, max_radius]`; in square
mode (where the radius-1 uniform window is 1×1, so its std is 0 and the
condition holds at radius 1 for every pixel) they lie in
`[1, max_radius]`. -/
theorem C2_radius_entry_bounds (sh : Shape) (img : Img) (f : ℚ)
    (radius_max : ℤ) (i j : ℕ) :
    radiusEntry sh img f radius_max i j ≤ radius_max.toNat
    ∧ (sh = Shape.square → 1 ≤ radius_max →
        1 ≤ radiusEntry sh img f radius_max i j) := by
  constructor
  · rw [radiusEntry_eq_lastHit]
    exact lastHit_le _ _
  · intro hsh hrm
    subst hsh
    rw [radiusEntry_eq_lastHit]
    rcases lastHit_char (fun r => condStd Shape.square img f r i j)
        radius_max.toNat with ⟨_, hall⟩ | ⟨h1, _, _, _⟩
    · have h1n : 1 ≤ radius_max.toNat := by omega
      have hc := hall 1 (Nat.le_refl 1) h1n
      simp only [condStd_one_square] at hc
      exact absurd hc (by simp)
    · exact h1

/-- Claim C2 witness: square mode at a concrete image. -/
theorem C2_witness :
    radiusEntry Shape.square [[0,9,0],[9,0,9],[0,9,0]] (1/2) 2 1 1 ≤ (2 : ℤ).toNat
    ∧ 1 ≤ radiusEntry Shape.square [[0,9,0],[9,0,9],[0,9,0]] (1/2) 2 1 1 :=
  ⟨(C2_radius_entry_bounds Shape.square [[0,9,0],[9,0,9],[0,9,0]] (1/2) 2 1 1).1,
   (C2_radius_entry_bounds Shape.square [[0,9,0],[9,0,9],[0,9,0]] (1/2) 2 1 1).2
     rfl (by with_unfolding_all decide)⟩

/-- Claim C3: line 94 replaces NaN entries with `numpy.mean(img_std)`,
the mean over the *whole* array NaNs included, which is itself NaN as soon
as one entry is NaN — so a NaN entry stays NaN, contradicting both the
claim and the function's own docstring ("they are removed before
returning the img").  On the std array `[NaN, 1.0]` the code leaves
`[NaN, 1.0]` while the claimed `nanmean` repair yields `[1.0, 1.0]`. -/
theorem C3_nanRepair_keeps_nan :
    nanRepair [none, some 1] = [none, some 1]
    ∧ specNanRepair [none, some 1] = [some 1, some 1] := by with_unfolding_all decide

/-- Claim C4: the claim asserts the fast estimator filters with windows of
side `2r+1`.  The code passes `r` itself as the `uniform_filter` size
(lines 218/222/284): at radius 1 the window is 1×1, and on `[[0,9],[0,0]]`
the std used by the code at pixel (0,0) is 0 while a side-3 (`2·1+1`)
window gives variance 14. -/
theorem C4_counterexample :
    localStdSq Shape.square [[0,9],[0,0]] 1 0 0 = some 0
    ∧ specFastLocalStdSq [[0,9],[0,0]] 1 0 0 = some 14
    ∧ localStdSq Shape.square [[0,9],[0,0]] 1 0 0
        ≠ specFastLocalStdSq [[0,9],[0,0]] 1 0 0 := by with_unfolding_all decide

/-- Claim C4 (amended): the window passed to the uniform filters at radius
`r` has side length `r` (the radius value itself), covering `r·r` pixels,
not `2r+1`. -/
theorem C4_window_side_is_r (img : Img) (r i j : ℕ) :
    (windowOffsets r).length = r ∧ (windowVals img r i j).length = r * r := by
  have h1 : (windowOffsets r).length = r := by
    rw [windowOffsets, List.length_map, List.length_range]
  refine ⟨h1, ?_⟩
  unfold windowVals
  rw [List.length_flatten, List.map_map]
  have h2 : ((windowOffsets r).map (List.length ∘ fun di =>
      (windowOffsets r).map (fun dj => pixel img ((i : ℤ) + di) ((j : ℤ) + dj)))).sum
      = ((windowOffsets r).map (fun _ => r)).sum := by
    refine congrArg List.sum (List.map_congr_left fun d _ => ?_)
    simp [h1]
  rw [h2, List.map_const', List.sum_replicate, h1, smul_eq_mul]

/-- Claim C5: the claim asserts division by zero never occurs because the
local std is clamped up to the noise floor `t_std`.  When `t_std = 0`
(constant image, or zero threshold fraction) the clamp is vacuous: on the
1×1 constant image `[[5]]` the written cell is `0/0` — not finite. -/
theorem C5_counterexample :
    (alnCell Shape.square [[(5:ℚ)]] (1/2) 1 0 0).isFiniteVal = false
    ∧ alnCell Shape.square [[(5:ℚ)]] (1/2) 1 0 0 = ALNCell.val 0 (some 0) := by
  with_unfolding_all decide

/-- Claim C5 (amended): whenever the noise floor is positive
(`t_std > 0`, i.e. a non-constant image and a positive threshold
fraction), the clamp bounds every written denominator below by `t_std` and
every cell of the normalized image is finite. -/
theorem C5_positive_noise_floor_finite (sh : Shape) (img : Img) (f : ℚ)
    (radius_max : ℤ) (i j : ℕ) (h : 0 < tVar img f) :
    (alnCell sh img f radius_max i j).isFiniteVal = true := by
  rw [alnCell_eq]
  by_cases hb : 1 ≤ radiusEntry sh img f radius_max i j
      ∧ radiusEntry sh img f radius_max i j ≤ radius_max.toNat
  · rw [if_pos hb]
    obtain ⟨v, hv, hv0⟩ :=
      localStdSq_some_nonneg sh img (radiusEntry sh img f radius_max i j) i j
    rw [hv]
    by_cases hlt : v < tVar img f
    · simp [clampStd, hlt, ALNCell.isFiniteVal]
      exact ne_of_gt h
    · simp [clampStd, hlt, ALNCell.isFiniteVal]
      push_neg at hlt
      exact ne_of_gt (lt_of_lt_of_le h hlt)
  · rw [if_neg hb]
    rfl

/-- Claim C5 witness: a non-constant image with positive threshold. -/
theorem C5_witness :
    0 < tVar [[0,9,0],[9,0,9],[0,9,0]] (1/2)
    ∧ (alnCell Shape.square [[0,9,0],[9,0,9],[0,9,0]] (1/2) 2 0 0).isFiniteVal
        = true :=
  ⟨by with_unfolding_all decide,
   C5_positive_noise_floor_finite Shape.square [[0,9,0],[9,0,9],[0,9,0]] (1/2)
     2 0 0 (by with_unfolding_all decide)⟩

set_option maxRecDepth 100000 in
/-- Claim C6: on the 10×10 constant-5 image with `threshold_std = 1/2`,
`radius_max = 3`, square/std, the radius field is indeed ≡ 3, but the
normalized image is not ≡ 0.0: `t_std = 0`, the local std is 0 and is not
raised by the clamp, so every cell is `(5−5)/0 = 0/0`, NaN. -/
theorem C6_counterexample :
    ((calculate_aln_image Shape.square
        (List.replicate 10 (List.replicate 10 (5:ℚ))) (1/2) 3).getD 0 []).getD 0
        ALNCell.init
      = ALNCell.val 0 (some 0)
    ∧ (ALNCell.val (0:ℚ) (some 0)).isZeroVal = false := by with_unfolding_all decide

set_option maxRecDepth 100000 in
/-- Claim C6 (amended): on the 10×10 constant-5 image with
`threshold_std = 1/2`, `radius_max = 3`, square/std, the radius field is
≡ 3 and every cell of the normalized image is the NaN `0/0` (numerator
`img − mean = 0`, denominator std `0` not raised by the clamp), not 0.0. -/
theorem C6_constant_image_radius3_aln_nan :
    calculate_radius_image Shape.square
        (List.replicate 10 (List.replicate 10 (5:ℚ))) (1/2) 3
      = List.replicate 10 (List.replicate 10 3)
    ∧ calculate_aln_image Shape.square
        (List.replicate 10 (List.replicate 10 (5:ℚ))) (1/2) 3
      = List.replicate 10 (List.replicate 10 (ALNCell.val 0 (some 0)))
    ∧ (ALNCell.val (0:ℚ) (some 0)).isNaNVal = true := by with_unfolding_all decide

/-- Claim C7: the claim asserts a negative variance estimate is clamped to
zero before the square root.  The code has no clamp: `numpy.sqrt` is
applied directly, so a negative variance yields NaN where the claim
predicts `sqrt 0 = 0`. -/
theorem C7_counterexample :
    stdOfVar (-1) = none ∧ specStdOfVar (-1) = some 0
    ∧ stdOfVar (-1) ≠ specStdOfVar (-1) := by with_unfolding_all decide

/-- Claim C7 (amended): a negative variance estimate is *not* clamped;
the square root is applied to it directly and produces NaN (the only
subsequent mitigation being the NaN-replacement line, see C3). -/
theorem C7_negative_variance_gives_nan (v : ℚ) (h : v < 0) :
    stdOfVar v = none := by
  unfold stdOfVar
  rw [if_pos h]

/-- Claim C7 witness. -/
theorem C7_witness : (-1 : ℚ) < 0 ∧ stdOfVar (-1) = none :=
  ⟨by norm_num, C7_negative_variance_gives_nan (-1) (by norm_num)⟩

/-- Claim C8: with the configuration validation of the settings layer
modelled from the spec (see `validConfig`), an invalid configuration is
rejected as a configuration error before the radius-search or
normalization pipeline runs. -/
theorem C8_invalid_config_rejected (sh : Shape) (img : Img) (f : ℚ)
    (radius_max : ℤ) (h : validConfig f radius_max = false) :
    runValidated sh img f radius_max = Except.error "invalid configuration" := by
  unfold runValidated
  rw [h]
  rfl

/-- Claim C8 witness: `threshold_fraction = 2` is outside `[0, 1)`. -/
theorem C8_witness :
    validConfig 2 3 = false
    ∧ runValidated Shape.square [[1]] 2 3
        = Except.error "invalid configuration" :=
  ⟨by with_unfolding_all decide, C8_invalid_config_rejected Shape.square [[1]] 2 3 (by with_unfolding_all decide)⟩

/-- Claim C9: a pixel whose dispersion stays strictly above the threshold
at every radius in `[1, radius_max]` (the assignment condition never
holds) keeps its `zeros_like` radius value 0, and since the normalizer
writes only where `radius_image == r` for `r` in `[1, radius_max]`, its
normalized cell keeps its `zeros_like` value 0.0 (`ALNCell.init`). -/
theorem C9_never_qualifying_stays_zero (sh : Shape) (img : Img) (f : ℚ)
    (radius_max : ℤ) (i j : ℕ)
    (h : ∀ r : ℕ, 1 ≤ r → (r : ℤ) ≤ radius_max →
        condStd sh img f r i j = false) :
    radiusEntry sh img f radius_max i j = 0
    ∧ alnCell sh img f radius_max i j = ALNCell.init := by
  have h0 : radiusEntry sh img f radius_max i j = 0 := by
    rw [radiusEntry_eq_lastHit]
    rcases lastHit_char (fun r => condStd sh img f r i j) radius_max.toNat with
      ⟨h0, _⟩ | ⟨h1, h2, h3, _⟩
    · exact h0
    · exfalso
      have h3' : condStd sh img f
          (lastHit (fun r => condStd sh img f r i j) radius_max.toNat) i j
          = true := h3
      have hf := h _ h1 (by omega)
      rw [hf] at h3'
      exact Bool.false_ne_true h3'
  refine ⟨h0, ?_⟩
  rw [alnCell_eq, h0, if_neg (by omega)]

/-- Claim C9 witness: the outlier pixel of `[[0,0,0],[0,9,0],[0,0,0]]` in
disc mode with `threshold_std = 1/10`, `radius_max = 1`. -/
theorem C9_witness :
    (∀ r : ℕ, 1 ≤ r → (r : ℤ) ≤ 1 →
        condStd Shape.disc [[0,0,0],[0,9,0],[0,0,0]] (1/10) r 1 1 = false)
    ∧ radiusEntry Shape.disc [[0,0,0],[0,9,0],[0,0,0]] (1/10) 1 1 1 = 0
    ∧ alnCell Shape.disc [[0,0,0],[0,9,0],[0,0,0]] (1/10) 1 1 1
        = ALNCell.init := by
  have h : ∀ r : ℕ, 1 ≤ r → (r : ℤ) ≤ 1 →
      condStd Shape.disc [[0,0,0],[0,9,0],[0,0,0]] (1/10) r 1 1 = false := by
    intro r h1 h2
    have hr : r = 1 := by omega
    subst hr
    with_unfolding_all decide
  exact ⟨h, C9_never_qualifying_stays_zero Shape.disc [[0,0,0],[0,9,0],[0,0,0]]
    (1/10) 1 1 1 h⟩

/-- Claim C10: the claim asserts the first slice of the output is set to
`max(input)+1`.  For a single-slice volume the two assignments hit the
same slice and the second wins: on `[[[0]]]` the first (= last) slice ends
as `max+2 = 2`, not `max+1 = 1`. -/
theorem C10_counterexample :
    (Seeding.run [[[(0:ℚ)]]]).getD 0 []
      ≠ Seeding.fillSlice [[(0:ℚ)]] (Seeding.amax [[[(0:ℚ)]]] + 1) := by with_unfolding_all decide

/-- Claim C10 (amended): for a volume with at least two slices, the output
has the input's slice count, its first slice is `max(input)+1` everywhere,
its last slice is `max(input)+2` everywhere, and every middle slice equals
the corresponding input slice (the input itself is untouched — the code
operates on a copy, which the embedding's value semantics renders
automatic). -/
theorem C10_seeding_slices (x : Seeding.Vol) (h2 : 2 ≤ x.length) :
    (Seeding.run x).length = x.length
    ∧ (Seeding.run x).getD 0 []
        = Seeding.fillSlice (x.getD 0 []) (Seeding.amax x + 1)
    ∧ (Seeding.run x).getD (x.length - 1) []
        = Seeding.fillSlice (x.getD (x.length - 1) []) (Seeding.amax x + 2)
    ∧ ∀ i, 0 < i → i < x.length - 1 →
        (Seeding.run x).getD i [] = x.getD i [] := by
  have h0lt : 0 < x.length := by omega
  have hne : (0 : ℕ) ≠ x.length - 1 := by omega
  have hhead : x.headD [] = x.getD 0 [] := by
    rcases x with _ | ⟨a, t⟩
    · simp at h2
    · rfl
  have htwo : Seeding.amax x + 1 + 1 = Seeding.amax x + 2 := by ring
  unfold Seeding.run
  simp only [List.length_set, List.getD_eq_getElem?_getD]
  refine ⟨trivial, ?_, ?_, ?_⟩
  · rw [List.getElem?_set_ne (by omega), List.getElem?_set_self (by simpa using h0lt)]
    simp [List.headD_eq_head?_getD, List.head?_eq_getElem?]
  · rw [List.getElem?_set_self (by simpa using (by omega : x.length - 1 < x.length)),
      List.getElem?_set_ne (by omega)]
    simp [htwo]
  · intro i hi0 hi1
    rw [List.getElem?_set_ne (by omega), List.getElem?_set_ne (by omega)]

/-- Claim C10 witness: a two-slice volume. -/
theorem C10_witness :
    (Seeding.run [[[(0:ℚ)]], [[(1:ℚ)]]]).length = 2
    ∧ (Seeding.run [[[(0:ℚ)]], [[(1:ℚ)]]]).getD 0 []
        = Seeding.fillSlice [[(0:ℚ)]] (Seeding.amax [[[(0:ℚ)]], [[(1:ℚ)]]] + 1)
    ∧ (Seeding.run [[[(0:ℚ)]], [[(1:ℚ)]]]).getD 1 []
        = Seeding.fillSlice [[(1:ℚ)]] (Seeding.amax [[[(0:ℚ)]], [[(1:ℚ)]]] + 2) := by
  have h := C10_seeding_slices [[[(0:ℚ)]], [[(1:ℚ)]]] (by with_unfolding_all decide)
  exact ⟨h.1, h.2.1, h.2.2.1⟩

end ALN
